import Mathlib

/-!
Verification of the nautilus assembly kernels: a shallow embedding of the
EMA/RSI signal kernels (signals.s, optimized_core.s, the Cython bindings),
the L2 order-book update kernel (order_book.s), the risk validation and
portfolio-variance kernels (risk_engine.s) and the tick batch processor
(market_data.s), with theorems settling the specified properties.

Floating-point registers are modelled by exact rationals: the divergences
proved below are structural (wrong value carried, wrong field read, missing
check), not rounding artefacts, so they are faithfully visible over ℚ.
Raw integer registers are modelled by Nat/Int, with explicit two's-complement
wrapping where 32-bit arithmetic matters.
-/

namespace Nautilus


/-- One scalar EMA step, from `_fast_ema_update` (optimized_core.s):
`alpha * new_price + (1 - alpha) * prev_ema`. -/
def fast_ema_update (price prev alpha : ℚ) : ℚ :=
  price * alpha + prev * (1 - alpha)

/-- The element-at-a-time loop of `AssemblyEngine.ema_batch`
(Cython binding): each output is `fast_ema_update` of the current price
and the previous output. -/
def emaScan (alpha : ℚ) : List ℚ → ℚ → List ℚ
  | [], _ => []
  | p :: ps, prev =>
    let e := fast_ema_update p prev alpha
    e :: emaScan alpha ps e

/-- Binding `AssemblyEngine.ema_batch` (Cython): first output is the first
price; every later output is one scalar `fast_ema_update` step from the
previous output. This is the scalar EMA recurrence reference. -/
def ema_batch (prices : List ℚ) (alpha : ℚ) : List ℚ :=
  match prices with
  | [] => []
  | p :: ps => p :: emaScan alpha ps p

/-- The `ema_scalar_loop` remainder of `_nautilus_calculate_ema_vectorized`
(signals.s): the true scalar recurrence
`alpha * price + (1 - alpha) * prev_ema`, one element at a time. -/
def emaScalarLoop (alpha : ℚ) : List ℚ → ℚ → List ℚ
  | [], _ => []
  | p :: ps, prev =>
    let e := alpha * p + (1 - alpha) * prev
    e :: emaScalarLoop alpha ps e

/-- The vector loop of `_nautilus_calculate_ema_vectorized` (signals.s):
`iters` 4-lane batches, each lane using the same broadcast `prev`
(`dup v1.4s, v18.s[0]`), the carried EMA updated only from lane 3
(`mov v18.s[0], v4.s[3]`); the `< 4` remainder runs the true scalar
recurrence (`ema_scalar_loop`). -/
def emaVecLoop (alpha : ℚ) : ℕ → ℚ → List ℚ → List ℚ
  | 0, prev, rest => emaScalarLoop alpha rest prev
  | iters + 1, prev, p1 :: p2 :: p3 :: p4 :: rest =>
    let o1 := alpha * p1 + (1 - alpha) * prev
    let o2 := alpha * p2 + (1 - alpha) * prev
    let o3 := alpha * p3 + (1 - alpha) * prev
    let o4 := alpha * p4 + (1 - alpha) * prev
    o1 :: o2 :: o3 :: o4 :: emaVecLoop alpha iters o4 rest
  | _ + 1, prev, rest => emaScalarLoop alpha rest prev

/-- Kernel `_nautilus_calculate_ema_vectorized` (signals.s): stores the first
price unchanged, then processes `(count - 1) / 4` four-lane batches and a
scalar remainder. -/
def nautilus_calculate_ema_vectorized (prices : List ℚ) (alpha : ℚ) : List ℚ :=
  match prices with
  | [] => []
  | p :: ps => p :: emaVecLoop alpha (ps.length / 4) p ps

/-! ## Order book (order_book.s) -/

/-- The order-book record of order_book.s: live levels per side as
`(price_raw, quantity_raw)` pairs (the occupied prefix of each fixed
array, so `bids.length` is the stored `bid_count`), the per-side
capacities, and the sequence counter. -/
structure OrderBook where
  bids : List (ℕ × ℕ)
  asks : List (ℕ × ℕ)
  bidCapacity : ℕ
  askCapacity : ℕ
  sequence : ℕ
  deriving DecidableEq, Repr

/-- The `binary_search` loop of `_nautilus_update_l2_level`: `left`/`right`
interval halving, equality first, then the per-side direction (bids compare
descending, asks ascending); `Sum.inl idx` is `found_exact`, `Sum.inr left`
is `not_found` with the insert position in `x11`. The interval shrinks
strictly each iteration, so a fuel of `levels.length + 1` never runs out. -/
def bsearchLoop (levels : List (ℕ × ℕ)) (side price : ℕ) :
    ℕ → ℕ → ℕ → ℕ ⊕ ℕ
  | 0, left, _ => Sum.inr left
  | fuel + 1, left, right =>
    if left < right then
      let mid := (left + right) / 2
      let levelPrice := (levels.getD mid (0, 0)).1
      if price = levelPrice then Sum.inl mid
      else if side = 0 then
        if levelPrice < price then bsearchLoop levels side price fuel left mid
        else bsearchLoop levels side price fuel (mid + 1) right
      else
        if price < levelPrice then bsearchLoop levels side price fuel left mid
        else bsearchLoop levels side price fuel (mid + 1) right
    else Sum.inr left

/-- Blocks `update_counts` / `update_sequence`: write the mutated side back, store
the new count and increment the sequence number. -/
def writeSide (book : OrderBook) (side : ℕ) (levels : List (ℕ × ℕ)) :
    OrderBook :=
  if side = 0 then { book with bids := levels, sequence := book.sequence + 1 }
  else { book with asks := levels, sequence := book.sequence + 1 }

/-- Kernel `_nautilus_update_l2_level` (order_book.s). Returns the new book and the
flag word (`bit 0 = book_changed`, `bit 1 = top_changed`). Faithful to the
assembly: `found_exact` with `action = 1` deletes (left shift), with any
other action stores the quantity in place — including quantity 0;
`not_found` with quantity 0 is `skip_insert` (no count/sequence write,
flags 0), and with any nonzero quantity inserts at the computed position
regardless of `action`. The `bid_capacity`/`ask_capacity` fields are never
read, exactly as in the assembly, which performs no capacity check. -/
def nautilus_update_l2_level (book : OrderBook) (side price qty action : ℕ) :
    OrderBook × ℕ :=
  let levels := if side = 0 then book.bids else book.asks
  match bsearchLoop levels side price (levels.length + 1) 0 levels.length with
  | Sum.inl idx =>
    let flags := if idx = 0 then 3 else 1
    if action = 1 then
      (writeSide book side (levels.eraseIdx idx), flags)
    else
      (writeSide book side (levels.set idx ((levels.getD idx (0, 0)).1, qty)),
        flags)
  | Sum.inr pos =>
    if qty = 0 then (book, 0)
    else
      let flags := if pos = 0 then 3 else 1
      (writeSide book side (levels.insertIdx pos (price, qty)), flags)

/-- Kernel `_nautilus_get_best_bid_ask` (order_book.s): first level price of each
side, `0` encoding an empty side. -/
def nautilus_get_best_bid_ask (book : OrderBook) : ℕ × ℕ :=
  (if book.bids.length = 0 then 0 else (book.bids.getD 0 (0, 0)).1,
    if book.asks.length = 0 then 0 else (book.asks.getD 0 (0, 0)).1)

/-! ## RSI (signals.s) -/

/-- Gain extraction of `_nautilus_calculate_rsi_vectorized`: the branch
`fcmp` / `b.lt` keeps a non-negative change as the gain, otherwise 0. -/
def gainOf (change : ℚ) : ℚ := if change < 0 then 0 else change

/-- Loss extraction: a negative change is negated (`fneg`) into the loss,
otherwise 0. -/
def lossOf (change : ℚ) : ℚ := if change < 0 then -change else 0

/-- The per-step price changes `prices[i] - prices[i-1]`, `i = 1, ...`. -/
def priceChanges (prices : List ℚ) : List ℚ :=
  List.zipWith (fun a b => a - b) prices.tail prices

/-- One Wilder smoothing step,
`((period - 1) * avg + sample) / period` (`calculate_smoothed_averages`). -/
def wilderUpdate (period : ℕ) (avg sample : ℚ) : ℚ :=
  (((period - 1 : ℕ) : ℚ) * avg + sample) / (period : ℚ)

/-- The RSI formula of the kernel: 100 when `avg_loss` is 0
(`rsi_no_loss`), otherwise `100 - 100 / (1 + avg_gain / avg_loss)`. -/
def rsiOf (avgGain avgLoss : ℚ) : ℚ :=
  if avgLoss = 0 then 100 else 100 - 100 / (1 + avgGain / avgLoss)

/-- The `rsi_calculation_loop`: for each remaining change, one Wilder
update of both averages followed by one stored RSI value. -/
def rsiLoop (period : ℕ) : List ℚ → ℚ → ℚ → List ℚ
  | [], _, _ => []
  | c :: cs, avgGain, avgLoss =>
    let avgGain' := wilderUpdate period avgGain (gainOf c)
    let avgLoss' := wilderUpdate period avgLoss (lossOf c)
    rsiOf avgGain' avgLoss' :: rsiLoop period cs avgGain' avgLoss'

/-- Kernel `_nautilus_calculate_rsi_vectorized` (signals.s), as the list of values
stored at output positions `period, ..., count - 1`. The seed loop sums
gains and losses over the changes at indices `1 ..= period` and divides by
`period`; the main loop then starts at price index `period`
(`mov x20, x19`), i.e. at change index `period - 1` of `priceChanges` —
re-consuming the last seeded change. -/
def nautilus_calculate_rsi_vectorized (prices : List ℚ) (period : ℕ) :
    List ℚ :=
  let changes := priceChanges prices
  let seedGain := ((changes.take period).map gainOf).sum / (period : ℚ)
  let seedLoss := ((changes.take period).map lossOf).sum / (period : ℚ)
  rsiLoop period (changes.drop (period - 1)) seedGain seedLoss

/-- Modelled from the spec's words (hand-computed Wilder reference): seed
`avg_gain`/`avg_loss` as the arithmetic mean of the first `period` changes;
the output at position `period` comes from the seed averages, and each
SUBSEQUENT change — change indices `period + 1, ...` of the price sequence,
i.e. `changes.drop period` — enters exactly one Wilder update. -/
def wilder_rsi_reference (prices : List ℚ) (period : ℕ) : List ℚ :=
  let changes := priceChanges prices
  let seedGain := ((changes.take period).map gainOf).sum / (period : ℚ)
  let seedLoss := ((changes.take period).map lossOf).sum / (period : ℚ)
  rsiOf seedGain seedLoss :: rsiLoop period (changes.drop period) seedGain seedLoss

/-! ## Risk engine (risk_engine.s) -/

/-- One order record as read by `_nautilus_validate_order_batch`:
32-bit symbol id, signed 32-bit quantity and scaled price. -/
structure OrderRec where
  symbolId : ℕ
  quantity : ℤ
  price : ℤ
  deriving DecidableEq, Repr

/-- The limit block: `max_position_size`, `min_price`, `max_price`
(three consecutive 32-bit words). -/
structure LimitSet where
  maxPositionSize : ℤ
  minPrice : ℤ
  maxPrice : ℤ
  deriving DecidableEq, Repr

/-- Two's-complement wrap of a 32-bit register value
(`add w14, w13, w9` and `neg w16, w15` operate on `w` registers). -/
def int32wrap (x : ℤ) : ℤ := (x + 2 ^ 31) % 2 ^ 32 - 2 ^ 31

/-- The per-order check of `_nautilus_validate_order_batch`, in branch
order: `new_position > max` invalid, `new_position < -max` invalid,
`price < min_price` invalid, `price > max_price` invalid, else valid.
The new position and the negated limit are 32-bit register values. -/
def orderValid (positions : ℕ → ℤ) (limits : LimitSet) (o : OrderRec) :
    Bool :=
  let newPosition := int32wrap (positions o.symbolId + o.quantity)
  let negMax := int32wrap (-limits.maxPositionSize)
  decide (newPosition ≤ limits.maxPositionSize)
    && decide (negMax ≤ newPosition)
    && decide (limits.minPrice ≤ o.price)
    && decide (o.price ≤ limits.maxPrice)

/-- The bit position receiving order `i`'s result:
`lsl x6, x6, x5` takes the shift amount modulo 64 on AArch64. -/
def maskBitPos (i : ℕ) : ℕ := i % 64

/-- The `validation_loop`: state is the result mask (`x4`) and the
positions memory the loop reads through `x1` (never written — the loop
body contains no store). A valid order ORs `1 <<< maskBitPos i` into the
mask. -/
def validateLoop (limits : LimitSet) :
    List OrderRec → ℕ → ℕ × (ℕ → ℤ) → ℕ × (ℕ → ℤ)
  | [], _, st => st
  | o :: os, i, (mask, positions) =>
    let mask' := if orderValid positions limits o
      then mask ||| (1 <<< maskBitPos i) else mask
    validateLoop limits os (i + 1) (mask', positions)

/-- Kernel `_nautilus_validate_order_batch` (risk_engine.s): runs the validation
loop from index 0 with mask 0, returning the final mask and the positions
memory. -/
def nautilus_validate_order_batch (orders : List OrderRec)
    (positions : ℕ → ℤ) (limits : LimitSet) : ℕ × (ℕ → ℤ) :=
  validateLoop limits orders 0 (0, positions)

/-- The mask-to-list conversion of `AssemblyRiskEngine.validate_order_batch`
(nautilus_assembly.pyx): `(result_mask & (1 << i)) != 0` for each order
index `i`. -/
def validate_order_batch_list (orders : List OrderRec) (positions : ℕ → ℤ)
    (limits : LimitSet) : List Bool :=
  (List.range orders.length).map fun i =>
    decide ((nautilus_validate_order_batch orders positions limits).1
      &&& (1 <<< i) ≠ 0)

/-- A 65-order batch: 64 orders with an out-of-range price followed by one
valid order, whose result bit wraps onto bit 0. -/
def overflowBatch : List OrderRec :=
  List.replicate 64 ⟨0, 0, 205⟩ ++ [⟨0, 5, 50⟩]

/-- The double-sum accumulation of `_nautilus_calculate_portfolio_var`
(risk_engine.s): for `i, j < count`, the term
`(weight_i * weight_j) * ((vol_i * vol_j) * correlation[i*count + j])`,
summed in loop order. This is the radicand handed to `fsqrt`. -/
def portfolioVarRadicand (positions correlations volatilities : List ℚ)
    (count : ℕ) : ℚ :=
  ((List.range count).map fun i =>
    ((List.range count).map fun j =>
      (positions.getD i 0 * positions.getD j 0) *
        ((volatilities.getD i 0 * volatilities.getD j 0) *
          correlations.getD (i * count + j) 0)).sum).sum

/-- Whether the kernel's result is NaN: `fsqrt` receives the accumulated
variance directly — no `fmax` with zero precedes it — and IEEE-754
`fsqrt` of a negative operand is NaN. -/
def portfolioVarIsNaN (positions correlations volatilities : List ℚ)
    (count : ℕ) : Bool :=
  decide (portfolioVarRadicand positions correlations volatilities count < 0)

/-! ## Tick batch processor (market_data.s) -/

/-- One 32-byte input tick: `{price, quantity, timestamp}` (plus padding),
as packed by `AssemblyMarketDataProcessor._copy_ticks_to_buffer`. -/
structure RawTick where
  price : ℚ
  quantity : ℚ
  timestamp : ℚ
  deriving DecidableEq, Repr

/-- The 1e8 precision scale (`fmul` by 100000000.0) followed by `fcvtzs`
(convert to integer, rounding toward zero). -/
def scaleFix (x : ℚ) : ℤ :=
  if x * 100000000 < 0 then -⌊-(x * 100000000)⌋ else ⌊x * 100000000⌋

/-- The scalar tail of `_nautilus_process_tick_batch`
(`remaining_ticks`): one tick becomes the record
`[instrument_id, scaled_price, scaled_quantity]`. -/
def processTickScalar (instrumentId : ℤ) (t : RawTick) : List ℤ :=
  [instrumentId, scaleFix t.price, scaleFix t.quantity]

/-- The `tick_vector_loop`: each iteration consumes two 32-byte ticks.
`zip1 v4.2d, v0.2d, v2.2d` picks the two prices, but
`zip1 v5.2d, v1.2d, v3.2d` picks the first doubleword of each tick's
second 16 bytes — the two TIMESTAMPS, not the quantities — and the three
16-byte stores emit `[id, id, price1, price2, ts1, ts2]`
(pairs of fields), not two consecutive `[id, price, qty]` records. The
odd remainder runs the scalar path. -/
def processTickPairsLoop (instrumentId : ℤ) :
    ℕ → List RawTick → List ℤ
  | 0, [t] => processTickScalar instrumentId t
  | 0, _ => []
  | iters + 1, t1 :: t2 :: rest =>
    instrumentId :: instrumentId ::
      scaleFix t1.price :: scaleFix t2.price ::
        scaleFix t1.timestamp :: scaleFix t2.timestamp ::
          processTickPairsLoop instrumentId iters rest
  | _ + 1, _ => []

/-- Kernel `_nautilus_process_tick_batch` (market_data.s): `count / 2` vector
iterations, then the odd single-tick remainder. -/
def nautilus_process_tick_batch (instrumentId : ℤ)
    (ticks : List RawTick) : List ℤ :=
  processTickPairsLoop instrumentId (ticks.length / 2) ticks

/-- One-at-a-time processing with the kernel's own scalar path: each tick
yields its `[instrument_id, scaled_price, scaled_quantity]` record, in
input order. -/
def processTicksOneAtATime (instrumentId : ℤ) (ticks : List RawTick) :
    List ℤ :=
  (ticks.map (processTickScalar instrumentId)).flatten

/-! ## Theorems -/

/-- C1: the 4-lane vectorized EMA kernel does NOT reproduce the scalar
recurrence: on prices `[10, 20, 30, 40, 50]` with `alpha = 1/2` it feeds the
pre-batch EMA `10` to every lane of the batch and produces
`[10, 15, 20, 25, 30]`, while the scalar element-at-a-time recurrence
(`ema_batch`) produces `[10, 15, 45/2, 125/4, 325/8]`; the two sequences
differ at index 2 (`20` versus `45/2 = 22.5`). -/
theorem ema_vectorized_diverges_from_scalar :
    nautilus_calculate_ema_vectorized [10, 20, 30, 40, 50] (1/2)
        = [10, 15, 20, 25, 30]
      ∧ ema_batch [10, 20, 30, 40, 50] (1/2)
        = [10, 15, 45/2, 125/4, 325/8]
      ∧ nautilus_calculate_ema_vectorized [10, 20, 30, 40, 50] (1/2)
        ≠ ema_batch [10, 20, 30, 40, 50] (1/2) := by
  refine ⟨?_, ?_, ?_⟩
  · simp [nautilus_calculate_ema_vectorized, emaVecLoop, emaScalarLoop]
    norm_num
  · simp [ema_batch, emaScan, fast_ema_update]
    norm_num
  · simp [nautilus_calculate_ema_vectorized, emaVecLoop, emaScalarLoop,
      ema_batch, emaScan, fast_ema_update]
    norm_num

/-- C2: `_nautilus_update_l2_level` performs no capacity check. With the bid
side full (one level, capacity 1), an Upsert of the absent price 90 does not
fail with `CapacityExceeded` and does not leave the book unchanged: it
inserts a second level (the store past the fixed array), raises the count
above the capacity, increments the sequence counter and reports
`book_changed`. -/
theorem upsert_at_capacity_inserts_past_capacity :
    (nautilus_update_l2_level ⟨[(100, 5)], [], 1, 1, 7⟩ 0 90 1 0).1.bids
        = [(100, 5), (90, 1)]
      ∧ (nautilus_update_l2_level ⟨[(100, 5)], [], 1, 1, 7⟩ 0 90 1 0).1.bids.length
        > (⟨[(100, 5)], [], 1, 1, 7⟩ : OrderBook).bidCapacity
      ∧ (nautilus_update_l2_level ⟨[(100, 5)], [], 1, 1, 7⟩ 0 90 1 0).1.sequence
        = 8
      ∧ (nautilus_update_l2_level ⟨[(100, 5)], [], 1, 1, 7⟩ 0 90 1 0).2
        = 1 := by decide

/-- C3: Upsert with quantity 0 of a price present on the side does NOT
behave like Remove: after `apply_delta(bid, 100, 1, Upsert)` followed by
`apply_delta(bid, 100, 0, Upsert)` the level is still present with stored
quantity 0 and `best_bid` returns 100, not the empty marker — the
`update_existing_level` path stores the quantity in place for every
non-delete action. -/
theorem qty_zero_upsert_leaves_level_present :
    (nautilus_update_l2_level ⟨[], [], 100, 100, 0⟩ 0 100 1 0).1.bids
        = [(100, 1)]
      ∧ (nautilus_update_l2_level
          (nautilus_update_l2_level ⟨[], [], 100, 100, 0⟩ 0 100 1 0).1
          0 100 0 0).1.bids = [(100, 0)]
      ∧ (nautilus_get_best_bid_ask
          (nautilus_update_l2_level
            (nautilus_update_l2_level ⟨[], [], 100, 100, 0⟩ 0 100 1 0).1
            0 100 0 0).1).1 = 100 := by decide

/-- C4: Remove of a price absent from the side is NOT a no-op for a nonzero
quantity argument: the `not_found` path never consults the action, so
`apply_delta(bid, 100, 5, Remove)` on an empty book inserts the level,
increments the sequence counter and returns flags 3
(`book_changed` and `top_changed`) instead of `book_changed = false`. -/
theorem remove_absent_price_inserts_level :
    (nautilus_update_l2_level ⟨[], [], 10, 10, 0⟩ 0 100 5 1).1.bids
        = [(100, 5)]
      ∧ (nautilus_update_l2_level ⟨[], [], 10, 10, 0⟩ 0 100 5 1).1.sequence
        = 1
      ∧ (nautilus_update_l2_level ⟨[], [], 10, 10, 0⟩ 0 100 5 1).2
        = 3 := by decide

/-- C5: the RSI kernel double-counts the change at price index `period`: it
enters both the seed average and the first Wilder update
(the main loop starts at `period`, not `period + 1`). On the spec's own
scenario `RSI(period = 2, prices = [1, 2, 1, 2, 1])` the kernel stores
`[25, 125/2, 125/4]` at positions 2..4 while the hand-computed Wilder
reference gives `[50, 75, 75/2]`. -/
theorem rsi_double_counts_last_seed_change :
    nautilus_calculate_rsi_vectorized [1, 2, 1, 2, 1] 2 = [25, 125/2, 125/4]
      ∧ wilder_rsi_reference [1, 2, 1, 2, 1] 2 = [50, 75, 75/2]
      ∧ nautilus_calculate_rsi_vectorized [1, 2, 1, 2, 1] 2
        ≠ wilder_rsi_reference [1, 2, 1, 2, 1] 2 := by
  refine ⟨?_, ?_, ?_⟩ <;>
    norm_num [nautilus_calculate_rsi_vectorized, wilder_rsi_reference,
      priceChanges, rsiLoop, wilderUpdate, rsiOf, gainOf, lossOf]

lemma validateLoop_positions (limits : LimitSet) (os : List OrderRec)
    (i : ℕ) (st : ℕ × (ℕ → ℤ)) :
    (validateLoop limits os i st).2 = st.2 := by
  induction os generalizing i st with
  | nil => rfl
  | cons o os ih =>
    obtain ⟨mask, positions⟩ := st
    simp only [validateLoop]
    exact ih (i + 1) _

lemma validateLoop_testBit_lo (limits : LimitSet) (os : List OrderRec)
    (i j : ℕ) (mask : ℕ) (positions : ℕ → ℤ)
    (hlen : i + os.length ≤ 64) (hj : j < i) :
    Nat.testBit (validateLoop limits os i (mask, positions)).1 j
      = Nat.testBit mask j := by
  induction os generalizing i mask with
  | nil => rfl
  | cons o os ih =>
    simp only [validateLoop]
    have hi : i < 64 := by
      simp only [List.length_cons] at hlen; omega
    rw [ih (i + 1) _ (by simp only [List.length_cons] at hlen ⊢; omega)
      (by omega)]
    by_cases hc : orderValid positions limits o
    · simp only [hc, if_true, Nat.testBit_or, Nat.testBit_shiftLeft,
        maskBitPos]
      have : ¬ (i % 64 ≤ j) := by omega
      simp [this]
    · simp [hc]

lemma validateLoop_testBit_main (limits : LimitSet) (os : List OrderRec)
    (i : ℕ) (mask : ℕ) (positions : ℕ → ℤ)
    (hlen : i + os.length ≤ 64) (k : ℕ) (hk : k < os.length) :
    Nat.testBit (validateLoop limits os i (mask, positions)).1 (i + k)
      = (Nat.testBit mask (i + k)
          || orderValid positions limits (os.getD k ⟨0, 0, 0⟩)) := by
  induction os generalizing i mask k with
  | nil => exact absurd hk (by simp)
  | cons o os ih =>
    have hi : i < 64 := by
      simp only [List.length_cons] at hlen; omega
    cases k with
    | zero =>
      simp only [validateLoop, List.getD_cons_zero, Nat.add_zero]
      rw [validateLoop_testBit_lo limits os (i + 1) i _ positions
        (by simp only [List.length_cons] at hlen ⊢; omega) (by omega)]
      by_cases hc : orderValid positions limits o
      · simp only [hc, if_true, Nat.testBit_or, Nat.testBit_shiftLeft,
          maskBitPos, Bool.or_true]
        have h64 : i % 64 = i := Nat.mod_eq_of_lt hi
        simp [h64]
      · simp [hc]
    | succ k' =>
      have hk' : k' < os.length := by
        simp only [List.length_cons] at hk; omega
      simp only [validateLoop, List.getD_cons_succ]
      have harith : i + (k' + 1) = (i + 1) + k' := by omega
      rw [harith, ih (i + 1) _
        (by simp only [List.length_cons] at hlen ⊢; omega) k' hk']
      by_cases hc : orderValid positions limits o
      · simp only [hc, if_true, Nat.testBit_or, Nat.testBit_shiftLeft,
          maskBitPos]
        have hne : Nat.testBit 1 (i + 1 + k' - i % 64) = false := by
          have h64 : i % 64 = i := Nat.mod_eq_of_lt hi
          rw [h64]
          have : i + 1 + k' - i = k' + 1 := by omega
          rw [this]
          simp [Nat.testBit_succ]
        simp [hne]
      · simp [hc]

lemma decide_and_shift_eq_testBit (mask i : ℕ) :
    decide (mask &&& (1 <<< i) ≠ 0) = mask.testBit i := by
  rw [Nat.shiftLeft_eq, one_mul, Nat.and_two_pow]
  cases h : mask.testBit i <;> simp [h, pow_ne_zero]

lemma int32wrap_eq_self {x : ℤ} (hlo : -(2 ^ 31) ≤ x) (hhi : x < 2 ^ 31) :
    int32wrap x = x := by
  have h31 : (2 : ℤ) ^ 31 = 2147483648 := by norm_num
  have h32 : (2 : ℤ) ^ 32 = 4294967296 := by norm_num
  rw [h31] at hlo hhi
  unfold int32wrap
  rw [h31, h32, Int.emod_eq_of_lt (by omega) (by omega)]
  omega

/-- C6 counterexample: the position check adds 32-bit registers, so it
judges the wrapped sum, not the mathematical one. With
`positions[0] = 2147483647`, `quantity = 2147483643` and
`max_position_size = 10`, the true new position `4294967290` exceeds the
limit, yet the wrapped sum is `-6` and the kernel reports the order
valid. -/
theorem order_validation_wraps_at_int32_overflow :
    orderValid (fun _ => 2147483647) ⟨10, 0, 100⟩ ⟨0, 2147483643, 50⟩ = true
      ∧ ¬((2147483647 : ℤ) + 2147483643 ≤ 10) := by decide

/-- C6 amended: for a non-negative `max_position_size` below `2 ^ 31` and
an order whose true new position `positions[symbol] + quantity` fits in a
signed 32-bit register, the kernel reports the order valid iff
`-max_position_size ≤ new_position ≤ max_position_size` and
`min_price ≤ price ≤ max_price`, all four bounds inclusive. -/
theorem order_validation_inclusive_bounds
    (positions : ℕ → ℤ) (limits : LimitSet) (o : OrderRec)
    (hmax0 : 0 ≤ limits.maxPositionSize)
    (hmax : limits.maxPositionSize < 2 ^ 31)
    (hlo : -(2 ^ 31) ≤ positions o.symbolId + o.quantity)
    (hhi : positions o.symbolId + o.quantity < 2 ^ 31) :
    orderValid positions limits o = true
      ↔ (-limits.maxPositionSize ≤ positions o.symbolId + o.quantity
          ∧ positions o.symbolId + o.quantity ≤ limits.maxPositionSize
          ∧ limits.minPrice ≤ o.price ∧ o.price ≤ limits.maxPrice) := by
  have h1 : int32wrap (positions o.symbolId + o.quantity)
      = positions o.symbolId + o.quantity := int32wrap_eq_self hlo hhi
  have h2 : int32wrap (-limits.maxPositionSize)
      = -limits.maxPositionSize := by
    refine int32wrap_eq_self (by omega) ?_
    have : (0 : ℤ) < 2 ^ 31 := by norm_num
    omega
  simp only [orderValid, h1, h2, Bool.and_eq_true, decide_eq_true_eq]
  tauto

/-- C6 amended, witness: an order whose resulting position equals
`max_position_size` exactly (`3 + 7 = 10`) is reported valid. -/
theorem order_validation_inclusive_bounds_witness :
    orderValid (fun _ => 3) ⟨10, 0, 100⟩ ⟨0, 7, 50⟩ = true
      ↔ (-(10 : ℤ) ≤ (fun _ => (3 : ℤ)) 0 + 7
          ∧ (fun _ => (3 : ℤ)) 0 + 7 ≤ 10
          ∧ (0 : ℤ) ≤ 50 ∧ (50 : ℤ) ≤ 100) :=
  order_validation_inclusive_bounds (fun _ => 3) ⟨10, 0, 100⟩ ⟨0, 7, 50⟩
    (by norm_num) (by norm_num) (by norm_num) (by norm_num)

/-- C7: the whole batch is judged against one immutable snapshot of the
positions memory: the loop returns the positions component unchanged, and
the bit stored for every order `i` is `orderValid` evaluated on the
ORIGINAL positions — in particular the second of two same-symbol orders is
validated without the first order's quantity. -/
theorem validate_batch_reads_positions_snapshot_only
    (orders : List OrderRec) (positions : ℕ → ℤ) (limits : LimitSet)
    (h64 : orders.length ≤ 64) :
    (nautilus_validate_order_batch orders positions limits).2 = positions
      ∧ ∀ i, i < orders.length →
          Nat.testBit
              (nautilus_validate_order_batch orders positions limits).1 i
            = orderValid positions limits (orders.getD i ⟨0, 0, 0⟩) := by
  constructor
  · exact validateLoop_positions limits orders 0 (0, positions)
  · intro i hi
    have h := validateLoop_testBit_main limits orders 0 0 positions
      (by omega) i hi
    simpa using h

/-- C7 witness: two identical orders on symbol 0 (quantity 5, position 3,
limit 10): each alone yields position 8 ≤ 10, and the second is indeed
reported valid — it is checked against the snapshot position 3, not
against 3 + 5. -/
theorem validate_batch_reads_positions_snapshot_only_witness :
    (nautilus_validate_order_batch [⟨0, 5, 50⟩, ⟨0, 5, 50⟩] (fun _ => 3)
        ⟨10, 0, 100⟩).2 = (fun _ => 3)
      ∧ Nat.testBit (nautilus_validate_order_batch
            [⟨0, 5, 50⟩, ⟨0, 5, 50⟩] (fun _ => 3) ⟨10, 0, 100⟩).1 1
        = orderValid (fun _ => 3) ⟨10, 0, 100⟩
            (List.getD [⟨0, 5, 50⟩, ⟨0, 5, 50⟩] 1 ⟨0, 0, 0⟩) :=
  ⟨(validate_batch_reads_positions_snapshot_only _ _ _ (by decide)).1,
    (validate_batch_reads_positions_snapshot_only
      [⟨0, 5, 50⟩, ⟨0, 5, 50⟩] (fun _ => 3) ⟨10, 0, 100⟩
      (by decide)).2 1 (by decide)⟩

/-- C10: the batch result is one 64-bit mask. For at most 64 orders the
boolean list decoded by the Cython binding is faithful (bit `i` iff order
`i` valid); the shift position is taken modulo 64, so order `i ≥ 64`
lands on the bit of order `i - 64`, and the 65-order `overflowBatch` is
decoded unfaithfully (its invalid order 0 reads back as valid because
valid order 64 wrapped onto bit 0). -/
theorem validate_batch_bitmask_faithful_iff_le_64 :
    (∀ orders positions limits, orders.length ≤ 64 →
        validate_order_batch_list orders positions limits
          = orders.map (fun o => orderValid positions limits o))
      ∧ (∀ i, 64 ≤ i → maskBitPos i = maskBitPos (i - 64))
      ∧ validate_order_batch_list overflowBatch (fun _ => 0) ⟨10, 0, 100⟩
          ≠ overflowBatch.map
              (fun o => orderValid (fun _ => 0) ⟨10, 0, 100⟩ o) := by
  refine ⟨?_, ?_, ?_⟩
  · intro orders positions limits h64
    apply List.ext_get
    · simp [validate_order_batch_list]
    intro n h1 h2
    simp only [validate_order_batch_list, List.get_eq_getElem,
      List.getElem_map, List.getElem_range]
    rw [decide_and_shift_eq_testBit]
    have hn : n < orders.length := by
      simpa [validate_order_batch_list] using h1
    have h := validateLoop_testBit_main limits orders 0 0 positions
      (by omega) n hn
    simp only [Nat.zero_add, Nat.zero_testBit, Bool.false_or] at h
    rw [nautilus_validate_order_batch, h, List.getD_eq_getElem]
  · intro i hi
    simp only [maskBitPos]
    omega
  · decide

/-- C10 witness: a one-order batch decoded faithfully, and bit position 64
wrapping onto bit position 0. -/
theorem validate_batch_bitmask_faithful_iff_le_64_witness :
    validate_order_batch_list [⟨0, 5, 50⟩] (fun _ => 3) ⟨10, 0, 100⟩
        = [(⟨0, 5, 50⟩ : OrderRec)].map
            (fun o => orderValid (fun _ => 3) ⟨10, 0, 100⟩ o)
      ∧ maskBitPos 64 = maskBitPos (64 - 64) :=
  ⟨validate_batch_bitmask_faithful_iff_le_64.1 [⟨0, 5, 50⟩] (fun _ => 3)
      ⟨10, 0, 100⟩ (by decide),
    validate_batch_bitmask_faithful_iff_le_64.2.1 64 (by decide)⟩

/-- C8: the kernel does NOT clamp a negative radicand: for the
non-positive-semi-definite input `weights = [1]`, `correlations = [-1]`,
`volatilities = [1]` the accumulated variance is `-1`, `fsqrt` receives it
unclamped and produces NaN, whereas the claimed `sqrt (max (variance, 0))`
would be the well-defined number 0. -/
theorem portfolio_var_negative_radicand_not_clamped :
    portfolioVarRadicand [1] [-1] [1] 1 = -1
      ∧ portfolioVarIsNaN [1] [-1] [1] 1 = true
      ∧ max (portfolioVarRadicand [1] [-1] [1] 1) 0 = 0 := by
  refine ⟨?_, ?_, ?_⟩ <;>
    norm_num [portfolioVarIsNaN, portfolioVarRadicand, List.range_succ]

/-- C9: the two-ticks-at-a-time vectorized path does NOT produce the same
output as one-at-a-time processing. For ticks `{1, 2, 3}` and `{4, 5, 6}`
with instrument id 7 the vector path emits
`[7, 7, 10^8, 4*10^8, 3*10^8, 6*10^8]` — the record fields interleaved
pairwise and the scaled TIMESTAMPS (3, 6) where the scaled quantities
(2, 5) belong — while one-at-a-time processing emits
`[7, 10^8, 2*10^8, 7, 4*10^8, 5*10^8]`. -/
theorem tick_batch_vector_path_diverges_from_scalar :
    nautilus_process_tick_batch 7 [⟨1, 2, 3⟩, ⟨4, 5, 6⟩]
        = [7, 7, 100000000, 400000000, 300000000, 600000000]
      ∧ processTicksOneAtATime 7 [⟨1, 2, 3⟩, ⟨4, 5, 6⟩]
        = [7, 100000000, 200000000, 7, 400000000, 500000000]
      ∧ nautilus_process_tick_batch 7 [⟨1, 2, 3⟩, ⟨4, 5, 6⟩]
        ≠ processTicksOneAtATime 7 [⟨1, 2, 3⟩, ⟨4, 5, 6⟩] := by
  refine ⟨?_, ?_, ?_⟩ <;>
    norm_num [nautilus_process_tick_batch, processTickPairsLoop,
      processTicksOneAtATime, processTickScalar, scaleFix]

end Nautilus
